import Mathlib

/-!
Verification of the Shopify-storefront discovery and classification scripts.

The development shallowly embeds the TypeScript sources:
* `src/detect/isShopify.ts` — the tiered pattern classifier and confidence score;
* `src/sources/certificateTransparency.ts` and `src/ct/ctScanner.ts` — the two
  certificate-transparency domain-cleaning adapters;
* the scan pipelines (`scanNiche`, `scanBingBulk`, `scanNicheWithBing`,
  `scanMassive`) and the bulk CT scan `massFetchDomainsFromCT`;
* the network probe `fetchHtml`.

Network effects are modelled by passing each stage's outcome (DNS result,
fetched body, per-query harvest outcome) as an explicit argument; all string
manipulation mirrors the JavaScript semantics (first-occurrence `replace`,
case-insensitive literal pattern tests, insertion-ordered `Set`).
-/

/-- Does the character list `pat` occur at the head of `s`?  Mirrors
JavaScript `String.prototype.startsWith` on code points. -/
def startsList : List Char → List Char → Bool
  | [], _ => true
  | _ :: _, [] => false
  | a :: as, b :: bs => a == b && startsList as bs

/-- Does `pat` occur anywhere inside `s` (as a contiguous run)? -/
def containsList (pat : List Char) : List Char → Bool
  | [] => startsList pat []
  | s@(_ :: rest) => startsList pat s || containsList pat rest

/-- The test `strContains s pat` is JavaScript `s.includes(pat)` / a literal-substring
regex test of `pat` against `s`. -/
def strContains (s pat : String) : Bool :=
  containsList pat.data s.data

/-- ASCII lower-casing of a string, mirroring `toLowerCase` on the ASCII
content these scripts process. -/
def lowerStr (s : String) : String :=
  String.mk (s.data.map Char.toLower)

/-- Remove the first occurrence of `pat` from the list, the semantics of
JavaScript `String.prototype.replace(pat, '')` with a string pattern. -/
def replaceFirstList (pat : List Char) : List Char → List Char
  | [] => []
  | s@(c :: rest) =>
    if startsList pat s then s.drop pat.length
    else c :: replaceFirstList pat rest

/-- JavaScript `s.replace(pat, '')`: drop the first occurrence of `pat`. -/
def replaceFirst (s pat : String) : String :=
  String.mk (replaceFirstList pat.data s.data)

/-- Characters removed by the `\s`-stripping regex and by `trim`. -/
def jsIsWhitespace (c : Char) : Bool :=
  c = ' ' ∨ c = '\t' ∨ c = '\n' ∨ c = '\r' ∨ c = '\x0b' ∨ c = '\x0c'

/-- JavaScript `String.prototype.trim`: drop whitespace from both ends. -/
def strTrim (s : String) : String :=
  String.mk (((s.data.dropWhile jsIsWhitespace).reverse.dropWhile jsIsWhitespace).reverse)

/-- JavaScript `s.startsWith(pat)`. -/
def strStartsWith (s pat : String) : Bool :=
  startsList pat.data s.data

/-- JavaScript `s.endsWith(pat)`. -/
def strEndsWith (s pat : String) : Bool :=
  startsList pat.data.reverse s.data.reverse

/-- JavaScript `s.substring(n)`: drop the first `n` characters. -/
def strDrop (s : String) (n : Nat) : String :=
  String.mk (s.data.drop n)

/-- Splitting on a single-character separator (accumulator holds the
current field reversed), the semantics of JavaScript `split` with a
one-character string. -/
def splitOnCharAux (sep : Char) : List Char → List Char → List (List Char)
  | [], cur => [cur.reverse]
  | c :: rest, cur =>
    if c == sep then cur.reverse :: splitOnCharAux sep rest []
    else splitOnCharAux sep rest (c :: cur)

/-- JavaScript `s.split(sep)` for a one-character separator `sep`. -/
def splitOnChar (s : String) (sep : Char) : List String :=
  (splitOnCharAux sep s.data []).map String.mk

/-! ## Classifier (`src/detect/isShopify.ts`) -/

/-- Tier-A (high-confidence) literal patterns of `isShopifyHtml`. -/
def highConfidencePatterns : List String :=
  ["cdn.shopify.com", "shopifycdn.com", "window.shopify", "shopify.theme",
   "shopify.settings", "shopify.analytics", "shopify.checkout"]

/-- Tier-B (medium-confidence) literal patterns of `isShopifyHtml`. -/
def mediumConfidencePatterns : List String :=
  [".myshopify.com", "data-shopify", "shopify-section", "shopify-section-id",
   "shopify.js", "shopify.theme.js", "/collections/", "/products/"]

/-- Tier-C (low-confidence) literal patterns of `isShopifyHtml`. -/
def lowConfidencePatterns : List String :=
  ["/cart", "/checkout", "shopify.com"]

/-- The pattern classifier of `src/detect/isShopify.ts` (`isShopifyHtml`):
empty content is negative; any Tier-A hit is positive; otherwise tier counts
are compared against the hard-coded thresholds. -/
def isShopifyHtml (html : String) : Bool :=
  if html.length = 0 then
    false
  else
    let htmlLower := lowerStr html
    if highConfidencePatterns.any (fun p => strContains htmlLower p) then
      true
    else
      let highCount := highConfidencePatterns.countP (fun p => strContains htmlLower p)
      let mediumCount := mediumConfidencePatterns.countP (fun p => strContains htmlLower p)
      let lowCount := lowConfidencePatterns.countP (fun p => strContains htmlLower p)
      if 1 ≤ highCount then true
      else if 2 ≤ mediumCount then true
      else if 1 ≤ mediumCount ∧ 2 ≤ lowCount then true
      else if strContains htmlLower ".myshopify.com" = true ∧ 3 ≤ mediumCount + lowCount then true
      else false

/-- The source's `isShopify` is an alias for `isShopifyHtml`. -/
def isShopify (html : String) : Bool :=
  isShopifyHtml html

/-- The weighted pattern set of `getShopifyConfidence` (weights written as
exact rationals in place of the source's decimal literals). -/
def weightedPatterns : List (String × ℚ) :=
  [("cdn.shopify.com", 4/10), (".myshopify.com", 4/10), ("window.shopify", 3/10),
   ("shopify.theme", 3/10), ("shopifycdn.com", 3/10), ("data-shopify", 2/10),
   ("shopify-section", 2/10), ("/collections/", 1/10), ("/products/", 1/10)]

/-- Confidence score of `src/detect/isShopify.ts` (`getShopifyConfidence`):
additive weights of the matched patterns, clamped to 1. -/
def getShopifyConfidence (html : String) : ℚ :=
  if html.length = 0 then 0
  else
    let htmlLower := lowerStr html
    let score := weightedPatterns.foldl
      (fun s pw => if strContains htmlLower pw.1 then s + pw.2 else s) 0
    min score 1

/-- Number of Tier-A patterns matching the (lower-cased) content. -/
def highMatchCount (html : String) : Nat :=
  highConfidencePatterns.countP (fun p => strContains (lowerStr html) p)

/-- Number of Tier-B patterns matching the (lower-cased) content. -/
def mediumMatchCount (html : String) : Nat :=
  mediumConfidencePatterns.countP (fun p => strContains (lowerStr html) p)

/-- Number of Tier-C patterns matching the (lower-cased) content. -/
def lowMatchCount (html : String) : Nat :=
  lowConfidencePatterns.countP (fun p => strContains (lowerStr html) p)

/-- Does the content mention the platform-hosted subdomain `.myshopify.com`? -/
def hasMyshopifyMention (html : String) : Bool :=
  strContains (lowerStr html) ".myshopify.com"

/-! ## Certificate-transparency adapters
(`src/sources/certificateTransparency.ts` and `src/ct/ctScanner.ts`)

Both adapters receive the parsed certificate-log response as the list of
`name_value` fields; HTTP transport is outside the embedded computation. -/

/-- A `{title, url}` search-result pair (`SearchResult` of the source). -/
structure SearchResult where
  title : String
  url : String
deriving DecidableEq, Repr

/-- Insertion-ordered `Set<string>.add`: append the element unless present. -/
def setInsert (l : List String) (d : String) : List String :=
  if l.contains d then l else l ++ [d]

/-- The store-name denylist of `getShopifyDomainsFromCT`. -/
def storeNameDenylist : List String :=
  ["www", "admin", "cdn", "login", "api", "app", "mail", "ftp", "test"]

/-- Per-line domain cleaning of `getShopifyDomainsFromCT`
(`src/sources/certificateTransparency.ts`): keep `.myshopify.com` names,
drop the first `*.` and `www.` occurrences, validate shape, and reject
denylisted store names. -/
def cleanCTDomainLine (domainLine : String) : Option String :=
  let domain := lowerStr (strTrim domainLine)
  if strEndsWith domain ".myshopify.com" then
    let cleanDomain := strTrim (replaceFirst (replaceFirst domain "*.") "www.")
    if cleanDomain ≠ "" ∧ cleanDomain ≠ "myshopify.com" ∧ strStartsWith cleanDomain "." = false then
      let parts := splitOnChar cleanDomain '.'
      if 2 ≤ parts.length ∧ parts.headD "" ≠ "" then
        if storeNameDenylist.contains (parts.headD "") then none
        else some cleanDomain
      else none
    else none
  else none

/-- Certificate loop of `getShopifyDomainsFromCT`: each non-empty
`name_value` is split on newlines, cleaned, and added to the
insertion-ordered set; at most `maxResults` certificates are processed. -/
def ctCollectDomains : List String → Nat → Nat → List String → List String
  | [], _, _, domains => domains
  | nameValue :: certs, processed, maxResults, domains =>
    if maxResults ≤ processed then domains
    else if nameValue = "" then ctCollectDomains certs processed maxResults domains
    else
      let domains' := (splitOnChar nameValue '\n').foldl
        (fun acc line =>
          match cleanCTDomainLine line with
          | some d => setInsert acc d
          | none => acc) domains
      ctCollectDomains certs (processed + 1) maxResults domains'

/-- Adapter `getShopifyDomainsFromCT` (`src/sources/certificateTransparency.ts`):
clean the certificate names and return one `{title, url}` result per unique
domain. -/
def getShopifyDomainsFromCT (nameValues : List String) (maxResults : Nat) :
    List SearchResult :=
  (ctCollectDomains nameValues 0 maxResults []).map
    (fun d => ⟨d, "https://" ++ d⟩)

/-- JavaScript `domain.replace(/\s+/g, '')`: delete every whitespace character. -/
def stripWhitespace (s : String) : String :=
  String.mk (s.data.filter (fun c => ¬ jsIsWhitespace c))

/-- Per-line domain cleaning of `fetchDomainsFromCT` (`src/ct/ctScanner.ts`):
trim, lower-case, strip whitespace, strip leading `*.` and `www.`, then keep
any plausible hostname.  Note: this variant applies no store-name denylist. -/
def cleanCtScannerLine (domainLine : String) : Option String :=
  let d0 := stripWhitespace (lowerStr (strTrim domainLine))
  let d1 := if strStartsWith d0 "*." then strDrop d0 2 else d0
  let d2 := if strStartsWith d1 "www." then strDrop d1 4 else d1
  if d2 ≠ "" ∧ 0 < d2.length ∧ strStartsWith d2 "." = false ∧
      strContains d2 "." = true ∧ strContains d2 " " = false ∧
      strContains d2 "\n" = false ∧ strContains d2 "\r" = false then
    some d2
  else none

/-- JavaScript truthiness guard `limit && limit <= n` used by the
`ctScanner` collection loop (a `limit` of `0` is falsy, hence no limit). -/
def limitReached (limit : Option Nat) (n : Nat) : Bool :=
  match limit with
  | none => false
  | some l => decide (l ≠ 0) && decide (l ≤ n)

/-- Certificate loop of `fetchDomainsFromCT`: stop once the optional limit
is reached, otherwise split each non-empty `name_value` on newlines, clean,
and add to the insertion-ordered set. -/
def ctScannerCollect (limit : Option Nat) : List String → List String → List String
  | [], domains => domains
  | nameValue :: certs, domains =>
    if limitReached limit domains.length then domains
    else if nameValue = "" then ctScannerCollect limit certs domains
    else
      let domains' := (splitOnChar nameValue '\n').foldl
        (fun acc line =>
          match cleanCtScannerLine line with
          | some d => setInsert acc d
          | none => acc) domains
      ctScannerCollect limit certs domains'

/-- Adapter `fetchDomainsFromCT` (`src/ct/ctScanner.ts`) applied to the parsed
certificate `name_value` list: collect cleaned domains and apply the final
truncation to `limit` entries. -/
def fetchDomainsFromCTNames (nameValues : List String) (limit : Option Nat) :
    List String :=
  let resultArray := ctScannerCollect limit nameValues []
  match limit with
  | some l => if l ≠ 0 ∧ l < resultArray.length then resultArray.take l else resultArray
  | none => resultArray

/-! ## Network probes (`src/network/fetchHtml.ts`, `src/network/dnsCheck.ts`)

The HTTP transport is abstracted by a `FetchOutcome`: a request either times
out, fails at the network layer, or yields a response with a success flag and
a body text (empty for `HEAD` responses). -/

/-- HTTP method accepted by `fetchHtml` (`'GET' | 'HEAD'`). -/
inductive HttpMethod
  | GET
  | HEAD
deriving DecidableEq, Repr

/-- The `FetchHtmlOptions` object of `src/network/fetchHtml.ts`. -/
structure FetchHtmlOptions where
  timeoutMs : Option Nat := none
  method : Option HttpMethod := none
  followRedirects : Option Bool := none
deriving DecidableEq, Repr

/-- Outcome of the underlying `fetch` call. -/
inductive FetchOutcome
  | timeout
  | netError
  | response (ok : Bool) (body : String)
deriving DecidableEq, Repr

/-- Probe `fetchHtml` (`src/network/fetchHtml.ts`): body text on a success status
(empty for `HEAD`), `null` on timeout, network failure, or non-success
status; the function never throws. -/
def fetchHtml (opts : FetchHtmlOptions) (outcome : FetchOutcome) : Option String :=
  let method := opts.method.getD .GET
  match outcome with
  | .timeout => none
  | .netError => none
  | .response ok body =>
    if ok = false then none
    else
      match method with
      | .HEAD => some ""
      | .GET => some body

/-- Result of `dnsLookup` / `dnsCheck` (`src/network/dnsCheck.ts`). -/
structure DnsLookupResult where
  ok : Bool
  address : Option String := none
  family : Option Nat := none
  error : Option String := none
deriving DecidableEq, Repr

/-- Result of `resolveCname` (`src/network/dnsCheck.ts`). -/
structure CnameResult where
  ok : Bool
  cnames : List String := []
  error : Option String := none
deriving DecidableEq, Repr

/-! ## Scan pipelines

Each pipeline's per-item processing is a pure function of the item's
environment: the candidate's title/url, the hostname extracted by `new URL`
(`none` when the constructor throws), the DNS outcome, the CNAME outcome
where used, and the fetched body (`none` when `fetchHtml` returned null). -/

/-- The `ScanResult` record of `src/pipeline` (`scanNiche` / `scanMassive`). -/
structure ScanResult where
  title : String
  url : String
  dnsOk : Bool
  htmlFetched : Bool
  isShopify : Bool
  confidence : Option ℚ := none
  error : Option String := none
deriving DecidableEq, Repr

/-- Environment of one candidate URL in `scanNiche` / `scanMassive`. -/
structure ScanItemEnv where
  title : String
  url : String
  hostname : Option String
  dns : DnsLookupResult
  html : Option String
deriving Repr

/-- Per-item stage sequence of `scanNiche` (and `scanMassive`): URL parse →
DNS check → HTML fetch → classification, each failure short-circuiting the
remaining stages and recording an error.  `htmlFetched` records
`html !== null` before the JS-falsy `if (!html)` guard fires, so an empty
fetched body has `htmlFetched = true` but is treated as a fetch failure and
never classified. -/
def scanNicheProcessItem (it : ScanItemEnv) : ScanResult :=
  let result : ScanResult :=
    { title := it.title, url := it.url, dnsOk := false,
      htmlFetched := false, isShopify := false }
  match it.hostname with
  | none => { result with error := some "URL invalide" }
  | some _ =>
    let result := { result with dnsOk := it.dns.ok }
    if it.dns.ok = false then
      { result with error := some ("DNS: " ++ (it.dns.error.getD "Échec")) }
    else
      match it.html with
      | none =>
        { result with error := some "Impossible de récupérer le HTML" }
      | some html =>
        let result := { result with htmlFetched := true }
        if html = "" then
          { result with error := some "Impossible de récupérer le HTML" }
        else
          { result with
            isShopify := isShopify html,
            confidence := some (getShopifyConfidence html) }

/-- The `ScanOutput` report record of `scanNiche` / `scanMassive`. -/
structure ScanOutput where
  query : String
  scannedCount : Nat
  results : List ScanResult
  shopifyUrls : List String
  shopifyCount : Nat
deriving DecidableEq, Repr

/-- Sequential analysis loop of `scanNiche`: push each item's result, and
push its URL onto `shopifyUrls` when classified positive. -/
def scanNicheLoop :
    List ScanItemEnv → List ScanResult × List String → List ScanResult × List String
  | [], acc => acc
  | it :: rest, (results, shopifyUrls) =>
    let r := scanNicheProcessItem it
    let shopifyUrls' := if r.isShopify then shopifyUrls ++ [r.url] else shopifyUrls
    scanNicheLoop rest (results ++ [r], shopifyUrls')

/-- Pipeline `scanNiche` (`src/pipeline`), given the harvested search results with
their per-item environments: empty harvests return an empty report, else the
sequential loop builds the batch report. -/
def scanNiche (query : String) (searchResults : List ScanItemEnv) : ScanOutput :=
  if searchResults.length = 0 then
    { query := query, scannedCount := 0, results := [],
      shopifyUrls := [], shopifyCount := 0 }
  else
    let st := scanNicheLoop searchResults ([], [])
    { query := query, scannedCount := st.1.length, results := st.1,
      shopifyUrls := st.2, shopifyCount := st.2.length }

/-- The `BingBulkScanResultItem` record of `scanBingBulk`. -/
structure BingBulkScanResultItem where
  query : String
  url : String
  title : Option String := none
  dnsOk : Bool
  cnames : List String
  htmlFetched : Bool
  isShopify : Bool
  confidence : Option ℚ := none
  error : Option String := none
deriving DecidableEq, Repr

/-- Environment of one candidate URL in `scanBingBulk` / `scanNicheWithBing`. -/
structure BingItemEnv where
  query : String
  url : String
  title : String
  hostname : Option String
  dns : DnsLookupResult
  cname : CnameResult
  html : Option String
deriving Repr

/-- Per-item stage sequence of `scanBingBulk`: URL parse → DNS lookup →
CNAME resolution → HTML fetch → minimum-length check (100 characters) →
classification.  The JS-falsy `if (!html)` guard fires both on a null fetch
result and on an empty fetched body, before `htmlFetched` is set, so an
empty body records `HTML non récupéré` with `htmlFetched = false` and never
reaches the length check. -/
def scanBingBulkProcessItem (it : BingItemEnv) : BingBulkScanResultItem :=
  let result : BingBulkScanResultItem :=
    { query := it.query, url := it.url, title := some it.title,
      dnsOk := false, cnames := [], htmlFetched := false, isShopify := false }
  match it.hostname with
  | none => { result with error := some "URL invalide" }
  | some _ =>
    let result := { result with dnsOk := it.dns.ok }
    if it.dns.ok = false then
      { result with error := some ("DNS: " ++ (it.dns.error.getD "Échec")) }
    else
      let result := { result with cnames := it.cname.cnames }
      match it.html with
      | none => { result with error := some "HTML non récupéré" }
      | some html =>
        if html = "" then
          { result with error := some "HTML non récupéré" }
        else
          let result := { result with htmlFetched := true }
          if html.length < 100 then
            { result with error := some "HTML trop court ou invalide" }
          else
            { result with isShopify := isShopifyHtml html }

/-- The `BingBulkScanResult` report record of `scanBingBulk` (the
`generatedAt` wall-clock timestamp is outside the embedding). -/
structure BingBulkScanResult where
  queries : List String
  totalUrls : Nat
  shopifyUrls : List String
  shopifyCount : Nat
  results : List BingBulkScanResultItem
deriving DecidableEq, Repr

/-- Sequential analysis loop of `scanBingBulk` over the deduplicated URL
list. -/
def scanBingBulkLoop :
    List BingItemEnv → List BingBulkScanResultItem × List String →
    List BingBulkScanResultItem × List String
  | [], acc => acc
  | it :: rest, (results, shopifyUrls) =>
    let r := scanBingBulkProcessItem it
    let shopifyUrls' := if r.isShopify then shopifyUrls ++ [r.url] else shopifyUrls
    scanBingBulkLoop rest (results ++ [r], shopifyUrls')

/-- Analysis phase of `scanBingBulk` over the aggregated (deduplicated)
candidate list; `totalUrls` is the size of that list. -/
def scanBingBulkAnalyze (queries : List String) (items : List BingItemEnv) :
    BingBulkScanResult :=
  let st := scanBingBulkLoop items ([], [])
  { queries := queries, totalUrls := items.length, shopifyUrls := st.2,
    shopifyCount := st.2.length, results := st.1 }

/-- The `NicheScanResultItem` record of `scanNicheWithBing`. -/
structure NicheScanResultItem where
  title : String
  url : String
  dnsOk : Bool
  cnames : List String
  htmlFetched : Bool
  isShopify : Bool
  error : Option String := none
deriving DecidableEq, Repr

/-- Per-item `processUrl` of `scanNicheWithBing`
(`src/pipeline/scanNicheWithBing.ts`): URL parse → DNS lookup → CNAME →
HTML fetch → classification (no minimum-length check in this pipeline).
`htmlFetched` records `html !== null` before the JS-falsy `if (!html)`
guard fires, so an empty fetched body has `htmlFetched = true` but is
treated as a fetch failure and never classified. -/
def scanNicheWithBingProcessUrl (it : BingItemEnv) : NicheScanResultItem :=
  let item : NicheScanResultItem :=
    { title := it.title, url := it.url, dnsOk := false, cnames := [],
      htmlFetched := false, isShopify := false }
  match it.hostname with
  | none => { item with error := some "URL invalide" }
  | some _ =>
    let item := { item with dnsOk := it.dns.ok }
    if it.dns.ok = false then
      { item with error := some ("DNS: " ++ (it.dns.error.getD "Échec")) }
    else
      let item := { item with cnames := it.cname.cnames }
      match it.html with
      | none => { item with error := some "HTML non récupéré" }
      | some html =>
        let item := { item with htmlFetched := true }
        if html = "" then
          { item with error := some "HTML non récupéré" }
        else
          { item with isShopify := isShopifyHtml html }

/-! ## Deduplicating aggregation

`scanBingBulk` merges the per-query harvests into a global `Set` of URLs
with `urlToTitle` / `urlToQuery` maps guarded by `allUrls.has`; `scanMassive`
merges the certificate-transparency and code-search harvests with a `Set`
and a `Map`, guarding only the second source's title writes. -/

/-- Association-list read, the semantics of JavaScript `Map.get` (keys are
unique by construction, so the first binding is the binding). -/
def mapGet : List (String × String) → String → Option String
  | [], _ => none
  | p :: m, k => if p.1 == k then some p.2 else mapGet m k

/-- Association-list write, the semantics of JavaScript `Map.set`:
overwrite the existing binding in place or append a new one. -/
def mapSet : List (String × String) → String → String → List (String × String)
  | [], k, v => [(k, v)]
  | p :: m, k, v => if p.1 == k then (k, v) :: m else p :: mapSet m k v

/-- Aggregation state of `scanBingBulk`: the insertion-ordered URL set plus
the title and provenance maps. -/
structure AggState where
  urls : List String
  titles : List (String × String)
  queries : List (String × String)
deriving DecidableEq, Repr

/-- The empty aggregation state. -/
def emptyAgg : AggState := ⟨[], [], []⟩

/-- One harvested result entering the `scanBingBulk` aggregation: URLs
already seen are skipped entirely, so the first occurrence's title and
query are retained. -/
def aggInsert (query : String) (st : AggState) (r : SearchResult) : AggState :=
  if st.urls.contains r.url then st
  else
    { urls := st.urls ++ [r.url], titles := st.titles ++ [(r.url, r.title)],
      queries := st.queries ++ [(r.url, query)] }

/-- Fold one query's harvest into the aggregation state. -/
def aggBatch (st : AggState) (query : String) (rs : List SearchResult) : AggState :=
  rs.foldl (aggInsert query) st

/-- The query loop of `scanBingBulk`'s harvesting phase: each batch is one
`(query, harvested results)` pair (a failed query harvests nothing). -/
def bingBulkAggregate : List (String × List SearchResult) → AggState → AggState
  | [], st => st
  | (q, rs) :: rest, st => bingBulkAggregate rest (aggBatch st q rs)

/-- Aggregation state of `scanMassive`: `allUrls` set and `urlToTitle` map. -/
structure MassiveAgg where
  allUrls : List String
  urlToTitle : List (String × String)
deriving DecidableEq, Repr

/-- One certificate-transparency result entering the `scanMassive` merge:
`allUrls.add(url)` and an unconditional `urlToTitle.set(url, title)`. -/
def massiveCtStep (st : MassiveAgg) (r : SearchResult) : MassiveAgg :=
  { allUrls := setInsert st.allUrls r.url,
    urlToTitle := mapSet st.urlToTitle r.url r.title }

/-- One code-search result entering the `scanMassive` merge:
`allUrls.add(url)` and a title write only when the URL has no title yet. -/
def massiveGithubStep (st : MassiveAgg) (r : SearchResult) : MassiveAgg :=
  { allUrls := setInsert st.allUrls r.url,
    urlToTitle :=
      if (mapGet st.urlToTitle r.url).isSome then st.urlToTitle
      else mapSet st.urlToTitle r.url r.title }

/-- The two-source merge of `scanMassive`: the certificate-transparency
results first, then the code-search results. -/
def scanMassiveAggregate (ctResults githubResults : List SearchResult) : MassiveAgg :=
  githubResults.foldl massiveGithubStep
    (ctResults.foldl massiveCtStep (⟨[], []⟩ : MassiveAgg))

/-! ## Bulk CT scan (`massFetchDomainsFromCT`)

Queries are processed sequentially; each query's harvest outcome is either a
domain list or a raised error.  The embedding keeps the cap check, the
consecutive-error counters, and the circuit breakers; sleeps are elided. -/

/-- Comparison of two strings (as code-point lists), the order used by the
JavaScript default `Array.prototype.sort` on these ASCII domains. -/
def strLtList : List Char → List Char → Bool
  | [], [] => false
  | [], _ :: _ => true
  | _ :: _, [] => false
  | a :: as, b :: bs =>
    if a < b then true
    else if b < a then false
    else strLtList as bs

/-- Insert a string into a sorted list, keeping it sorted. -/
def insertSorted (d : String) : List String → List String
  | [] => [d]
  | x :: xs => if strLtList x.data d.data then x :: insertSorted d xs else d :: x :: xs

/-- Ascending sort of a string list (insertion sort), the effect of
`Array.from(set).sort()`. -/
def sortStrings : List String → List String
  | [] => []
  | x :: xs => insertSorted x (sortStrings xs)

/-- The options of `massFetchDomainsFromCT` that affect domain collection. -/
structure MassCtOptions where
  maxTotalDomains : Option Nat := none
  stopAfterConsecutiveErrors : Option Nat := none
deriving Repr

/-- Loop state of `massFetchDomainsFromCT`. -/
structure MassCtState where
  allDomains : List String
  patternsUsed : List String
  consecutiveErrors : Nat
deriving Repr

/-- JavaScript truthiness guard `maxTotalDomains && size >= maxTotalDomains`
(a cap of `0` is falsy, hence no cap). -/
def capReached (cap : Option Nat) (n : Nat) : Bool :=
  match cap with
  | none => false
  | some c => decide (c ≠ 0) && decide (c ≤ n)

/-- Query loop of `massFetchDomainsFromCT`: break when the cap is already
reached; on a harvest, reset the error streak if non-empty, merge into the
dedup set, record the query, and re-check the cap; on a raised error, bump
the streak, break if the caller ceiling is hit, and otherwise apply the
internal circuit breaker (streak reset at 5) and continue. -/
def massCtLoop (opts : MassCtOptions) :
    List (String × Except String (List String)) → MassCtState → MassCtState
  | [], st => st
  | (description, outcome) :: rest, st =>
    if capReached opts.maxTotalDomains st.allDomains.length then st
    else
      match outcome with
      | .ok domains =>
        let ce := if 0 < domains.length then 0 else st.consecutiveErrors
        let all := domains.foldl setInsert st.allDomains
        let st' : MassCtState :=
          { allDomains := all, patternsUsed := st.patternsUsed ++ [description],
            consecutiveErrors := ce }
        if capReached opts.maxTotalDomains st'.allDomains.length then st'
        else massCtLoop opts rest st'
      | .error _ =>
        let ce := st.consecutiveErrors + 1
        if limitReached opts.stopAfterConsecutiveErrors ce then
          { st with consecutiveErrors := ce }
        else
          massCtLoop opts rest { st with consecutiveErrors := if 5 ≤ ce then 0 else ce }

/-- The `MassCtResult` report record of `massFetchDomainsFromCT`. -/
structure MassCtResult where
  patternsUsed : List String
  totalDomains : Nat
  domains : List String
deriving DecidableEq, Repr

/-- Bulk scan `massFetchDomainsFromCT`: run the query loop from the empty
state and return the sorted deduplicated domain list with its count. -/
def massFetchDomainsFromCT (opts : MassCtOptions)
    (queries : List (String × Except String (List String))) : MassCtResult :=
  let st := massCtLoop opts queries ⟨[], [], 0⟩
  let domainsArray := sortStrings st.allDomains
  ⟨st.patternsUsed, domainsArray.length, domainsArray⟩

/-- Number of domains one query outcome harvests (0 for a raised error). -/
def harvestLen : String × Except String (List String) → Nat
  | (_, .ok ds) => ds.length
  | (_, .error _) => 0

/-- Largest single-query harvest size of a query list. -/
def maxHarvestLen (queries : List (String × Except String (List String))) : Nat :=
  queries.foldr (fun q m => max (harvestLen q) m) 0

/-- Left-biased choice on optional strings (the first wins when present). -/
def optOr : Option String → Option String → Option String
  | some t, _ => some t
  | none, y => y

/-- Title of the first occurrence of a URL in a harvested result list. -/
def firstTitle : List SearchResult → String → Option String
  | [], _ => none
  | r :: l, u => if r.url == u then some r.title else firstTitle l u

/-- All results of a batch list, in harvest order. -/
def harvestJoin (batches : List (String × List SearchResult)) : List SearchResult :=
  (batches.map Prod.snd).flatten

/-! ## Claim C10 -/

/-- C10: there is page content — the string "shopify.analytics", which hits
the Tier-A decision pattern `shopify.analytics` but none of the
confidence-weighted patterns — that `isShopifyHtml` classifies positive
while `getShopifyConfidence` scores exactly 0. -/
theorem positive_match_with_zero_confidence :
    ∃ html : String, isShopifyHtml html = true ∧ getShopifyConfidence html = 0 :=
  ⟨"shopify.analytics", by decide, by decide⟩

/-! ## Claim C3 -/

/-- C3 counterexample: the `ctScanner.ts` cleaning implementation
(`fetchDomainsFromCT`) applies no store-name denylist, so on the response
with names `*.store1.myshopify.com`, `www.store1.myshopify.com`,
`admin.myshopify.com` it yields two candidate domains, keeping
`admin.myshopify.com` — not exactly the one candidate the claim states for
both implementations. -/
theorem ctScanner_keeps_denylisted_admin :
    fetchDomainsFromCTNames
      ["*.store1.myshopify.com", "www.store1.myshopify.com", "admin.myshopify.com"] none
      = ["store1.myshopify.com", "admin.myshopify.com"]
    ∧ fetchDomainsFromCTNames
      ["*.store1.myshopify.com", "www.store1.myshopify.com", "admin.myshopify.com"] none
      ≠ ["store1.myshopify.com"] := by
  exact ⟨by decide, by decide⟩

/-- C3 amended: on the certificate-log response with names
`*.store1.myshopify.com`, `www.store1.myshopify.com`, `admin.myshopify.com`,
the `certificateTransparency.ts` adapter folds the wildcard and `www`
variants and discards the denylisted `admin` entry, yielding exactly the one
candidate `store1.myshopify.com`; the duplicate `ctScanner.ts` implementation
folds the variants the same way but retains `admin.myshopify.com`, since it
has no denylist. -/
theorem ct_domain_cleaning_on_wildcard_www_admin :
    getShopifyDomainsFromCT
      ["*.store1.myshopify.com", "www.store1.myshopify.com", "admin.myshopify.com"] 10000
      = [⟨"store1.myshopify.com", "https://store1.myshopify.com"⟩]
    ∧ fetchDomainsFromCTNames
      ["*.store1.myshopify.com", "www.store1.myshopify.com", "admin.myshopify.com"] none
      = ["store1.myshopify.com", "admin.myshopify.com"] := by
  exact ⟨by decide, by decide⟩

/-! ## Claim C8 -/

/-- C8: `fetchHtml` is a total function of the request outcome (it never
raises): it returns `none` on timeout, on network failure, and on any
non-success status, and on a success status it returns the response body
text — for the default/`GET` method the body, for `HEAD` the empty body —
so a `none` gives callers no way to tell the cause apart. -/
theorem fetchHtml_total_null_on_unavailable :
    ∀ (opts : FetchHtmlOptions) (t : Option Nat) (fr : Option Bool) (body : String),
      fetchHtml opts .timeout = none
      ∧ fetchHtml opts .netError = none
      ∧ fetchHtml opts (.response false body) = none
      ∧ fetchHtml ⟨t, none, fr⟩ (.response true body) = some body
      ∧ fetchHtml ⟨t, some .GET, fr⟩ (.response true body) = some body
      ∧ fetchHtml ⟨t, some .HEAD, fr⟩ (.response true body) = some "" := by
  intro opts t fr body
  refine ⟨rfl, rfl, ?_, rfl, rfl, rfl⟩
  cases hm : opts.method.getD .GET <;> simp [fetchHtml, hm]

/-! ## Claim C5 -/

/-- C5: in each of the three scan pipelines, an item whose domain resolution
fails is recorded with `htmlFetched = false` and `isShopify = false`, and
the recorded result does not depend on the content-fetch oracle at all — no
content fetch is attempted for that item. -/
theorem dns_failure_short_circuits_item :
    ∀ (it : ScanItemEnv) (bit : BingItemEnv) (h h' : Option String),
      it.dns.ok = false → bit.dns.ok = false →
      ((scanNicheProcessItem it).htmlFetched = false
        ∧ (scanNicheProcessItem it).isShopify = false
        ∧ scanNicheProcessItem { it with html := h }
            = scanNicheProcessItem { it with html := h' })
      ∧ ((scanBingBulkProcessItem bit).htmlFetched = false
        ∧ (scanBingBulkProcessItem bit).isShopify = false
        ∧ scanBingBulkProcessItem { bit with html := h }
            = scanBingBulkProcessItem { bit with html := h' })
      ∧ ((scanNicheWithBingProcessUrl bit).htmlFetched = false
        ∧ (scanNicheWithBingProcessUrl bit).isShopify = false
        ∧ scanNicheWithBingProcessUrl { bit with html := h }
            = scanNicheWithBingProcessUrl { bit with html := h' }) := by
  intro it bit h h' hdns hbdns
  refine ⟨?_, ?_, ?_⟩
  · cases hh : it.hostname <;>
      simp [scanNicheProcessItem, hh, hdns]
  · cases hh : bit.hostname <;>
      simp [scanBingBulkProcessItem, hh, hbdns]
  · cases hh : bit.hostname <;>
      simp [scanNicheWithBingProcessUrl, hh, hbdns]

/-- Witness for C5: a concrete candidate whose DNS lookup failed is recorded
negative with no fetched content in the `scanNiche` pipeline. -/
theorem dns_failure_short_circuits_item_witness :
    (scanNicheProcessItem
      ⟨"shop", "https://dead.example", some "dead.example",
        ⟨false, none, none, some "ENOTFOUND"⟩, some "ignored"⟩).htmlFetched = false :=
  (dns_failure_short_circuits_item
    ⟨"shop", "https://dead.example", some "dead.example",
      ⟨false, none, none, some "ENOTFOUND"⟩, some "ignored"⟩
    ⟨"q", "https://dead.example", "shop", some "dead.example",
      ⟨false, none, none, some "ENOTFOUND"⟩, ⟨false, [], none⟩, some "ignored"⟩
    (some "a") none rfl rfl).1.1

/-! ## Claim C2 -/

/-- C2 counterexample: `scanNiche` applies no minimum-length threshold.  On
a fetched content of "ok" (length 2) it records no content-too-short error
and the pattern classifier does decide on that content — the recorded
confidence is the classifier's score for "ok".  The claim's "each scan
pipeline records ... a content-too-short error" is therefore false for
`scanNiche`. -/
theorem scanNiche_has_no_length_threshold :
    (scanNicheProcessItem
      ⟨"shop", "https://s.example", some "s.example",
        ⟨true, some "93.184.216.34", some 4, none⟩, some "ok"⟩).error = none
    ∧ (scanNicheProcessItem
      ⟨"shop", "https://s.example", some "s.example",
        ⟨true, some "93.184.216.34", some 4, none⟩, some "ok"⟩).confidence
        = some (getShopifyConfidence "ok")
    ∧ (scanNicheProcessItem
      ⟨"shop", "https://s.example", some "s.example",
        ⟨true, some "93.184.216.34", some 4, none⟩, some "ok"⟩).isShopify
        = isShopify "ok" := by
  exact ⟨rfl, rfl, rfl⟩

/-- C2 amended: only `scanBingBulk` enforces the 100-character plausibility
threshold: a non-empty fetched body shorter than 100 characters is recorded
with `isShopify = false` and the error `HTML trop court ou invalide`,
without the pattern classifier deciding (even Tier-A content is rejected);
an empty body is caught earlier by the JS-falsy `if (!html)` guard as a
fetch failure; `scanNiche` has no threshold and passes the content straight
to the classifier, which for "ok" returns a negative with no error
recorded. -/
theorem bing_bulk_short_content_rejected :
    ∀ (it : BingItemEnv) (host html : String),
      it.hostname = some host → it.dns.ok = true → it.html = some html →
      html ≠ "" → html.length < 100 →
      (scanBingBulkProcessItem it).htmlFetched = true
      ∧ (scanBingBulkProcessItem it).isShopify = false
      ∧ (scanBingBulkProcessItem it).error = some "HTML trop court ou invalide" := by
  intro it host html hh hdns hhtml hne hlen
  simp [scanBingBulkProcessItem, hh, hdns, hhtml, hne, hlen]

/-- Witness for C2: the Tier-A content "cdn.shopify.com" (length 15) would
classify positive, yet `scanBingBulk` records the item negative with the
content-too-short error. -/
theorem bing_bulk_short_content_rejected_witness :
    isShopifyHtml "cdn.shopify.com" = true
    ∧ (scanBingBulkProcessItem
      ⟨"q", "https://s.example", "shop", some "s.example",
        ⟨true, some "93.184.216.34", some 4, none⟩, ⟨false, [], none⟩,
        some "cdn.shopify.com"⟩).isShopify = false :=
  ⟨by decide,
    (bing_bulk_short_content_rejected
      ⟨"q", "https://s.example", "shop", some "s.example",
        ⟨true, some "93.184.216.34", some 4, none⟩, ⟨false, [], none⟩,
        some "cdn.shopify.com"⟩
      "s.example" "cdn.shopify.com" rfl rfl rfl (by decide) (by decide)).2.1⟩

/-! ## Claim C6 -/

/-- Closed form of the `scanNiche` analysis loop: the accumulated results
are the per-item results in order, and the accumulated positive URLs are
exactly the URLs of the positive results. -/
theorem scanNicheLoop_spec (items : List ScanItemEnv) (rs : List ScanResult)
    (su : List String) :
    scanNicheLoop items (rs, su)
      = (rs ++ items.map scanNicheProcessItem,
         su ++ ((items.map scanNicheProcessItem).filter
            (fun r => r.isShopify)).map (fun r => r.url)) := by
  induction items generalizing rs su with
  | nil => simp [scanNicheLoop]
  | cons it rest ih =>
    by_cases h : (scanNicheProcessItem it).isShopify = true
    · simp [scanNicheLoop, ih, h]
    · simp [scanNicheLoop, ih, h]

/-- Closed form of the `scanBingBulk` analysis loop. -/
theorem scanBingBulkLoop_spec (items : List BingItemEnv)
    (rs : List BingBulkScanResultItem) (su : List String) :
    scanBingBulkLoop items (rs, su)
      = (rs ++ items.map scanBingBulkProcessItem,
         su ++ ((items.map scanBingBulkProcessItem).filter
            (fun r => r.isShopify)).map (fun r => r.url)) := by
  induction items generalizing rs su with
  | nil => simp [scanBingBulkLoop]
  | cons it rest ih =>
    by_cases h : (scanBingBulkProcessItem it).isShopify = true
    · simp [scanBingBulkLoop, ih, h]
    · simp [scanBingBulkLoop, ih, h]

/-- C6: every batch report of `scanNiche` and of `scanBingBulk` has its
scanned count equal to the number of per-item results, its positive count
equal to the length of the positive-URL list, and the positive-URL list
exactly the URLs of the results whose `isShopify` flag is set; and the
3-candidate scenario — one DNS failure, one fetch failure, one Tier-A
content — reports 3 scanned, exactly 1 positive, and two items with a
non-empty error field. -/
theorem batch_report_counts_consistent :
    ∀ (query : String) (items : List ScanItemEnv) (queries : List String)
      (bitems : List BingItemEnv),
      ((scanNiche query items).scannedCount = (scanNiche query items).results.length
        ∧ (scanNiche query items).shopifyCount
            = (scanNiche query items).shopifyUrls.length
        ∧ (scanNiche query items).shopifyUrls
            = ((scanNiche query items).results.filter
                (fun r => r.isShopify)).map (fun r => r.url))
      ∧ ((scanBingBulkAnalyze queries bitems).totalUrls
            = (scanBingBulkAnalyze queries bitems).results.length
        ∧ (scanBingBulkAnalyze queries bitems).shopifyCount
            = (scanBingBulkAnalyze queries bitems).shopifyUrls.length
        ∧ (scanBingBulkAnalyze queries bitems).shopifyUrls
            = ((scanBingBulkAnalyze queries bitems).results.filter
                (fun r => r.isShopify)).map (fun r => r.url))
      ∧ ((scanNiche "niche"
            [⟨"a", "https://a.example", some "a.example",
                ⟨false, none, none, some "ENOTFOUND"⟩, none⟩,
             ⟨"b", "https://b.example", some "b.example",
                ⟨true, some "1.1.1.1", some 4, none⟩, none⟩,
             ⟨"c", "https://c.example", some "c.example",
                ⟨true, some "1.1.1.2", some 4, none⟩,
                some "cdn.shopify.com"⟩]).scannedCount = 3
        ∧ (scanNiche "niche"
            [⟨"a", "https://a.example", some "a.example",
                ⟨false, none, none, some "ENOTFOUND"⟩, none⟩,
             ⟨"b", "https://b.example", some "b.example",
                ⟨true, some "1.1.1.1", some 4, none⟩, none⟩,
             ⟨"c", "https://c.example", some "c.example",
                ⟨true, some "1.1.1.2", some 4, none⟩,
                some "cdn.shopify.com"⟩]).shopifyCount = 1
        ∧ ((scanNiche "niche"
            [⟨"a", "https://a.example", some "a.example",
                ⟨false, none, none, some "ENOTFOUND"⟩, none⟩,
             ⟨"b", "https://b.example", some "b.example",
                ⟨true, some "1.1.1.1", some 4, none⟩, none⟩,
             ⟨"c", "https://c.example", some "c.example",
                ⟨true, some "1.1.1.2", some 4, none⟩,
                some "cdn.shopify.com"⟩]).results.countP
              (fun r => r.error.isSome)) = 2) := by
  intro query items queries bitems
  refine ⟨?_, ?_, by decide⟩
  · by_cases hl : items.length = 0
    · simp [scanNiche, hl]
    · simp [scanNiche, hl, scanNicheLoop_spec]
  · simp [scanBingBulkAnalyze, scanBingBulkLoop_spec]

/-! ## Claim C4 -/

/-- An empty collection never triggers the total-domains cap. -/
theorem capReached_zero (cap : Option Nat) : capReached cap 0 = false := by
  cases cap with
  | none => rfl
  | some c => cases c <;> rfl

/-- C4: with a caller-specified consecutive-failure ceiling of 2, if the
harvest calls for the first two queries both raise, the bulk CT scan
returns immediately with whatever was collected before the abort — here the
empty collection — whatever the remaining queries are (so the third query
is never attempted), and it returns normally instead of raising. -/
theorem mass_ct_aborts_after_two_failures :
    ∀ (cap : Option Nat) (d1 d2 e1 e2 : String)
      (rest : List (String × Except String (List String))),
      massFetchDomainsFromCT ⟨cap, some 2⟩
        ((d1, .error e1) :: (d2, .error e2) :: rest)
      = ⟨[], 0, []⟩ := by
  intro cap d1 d2 e1 e2 rest
  simp [massFetchDomainsFromCT, massCtLoop, capReached_zero, limitReached, sortStrings]

/-! ## Claim C1 -/

/-- A list has a member satisfying `p` exactly when at least one member is
counted by `p`. -/
theorem any_eq_true_iff_countP (p : String → Bool) (l : List String) :
    l.any p = true ↔ 1 ≤ l.countP p := by
  induction l with
  | nil => simp
  | cons a l ih =>
    by_cases h : p a = true <;> simp [List.countP_cons, h, ih]

/-- C1: `isShopifyHtml` returns `true` exactly when at least one Tier-A
pattern matches, or at least two Tier-B patterns match, or at least one
Tier-B and at least two Tier-C patterns match, or `.myshopify.com` is
mentioned and the combined Tier-B plus Tier-C match count is at least
three; and empty content is classified `false`. -/
theorem classifier_tiered_decision_rule :
    ∀ html : String,
      (isShopifyHtml html = true ↔
        (1 ≤ highMatchCount html ∨ 2 ≤ mediumMatchCount html
          ∨ (1 ≤ mediumMatchCount html ∧ 2 ≤ lowMatchCount html)
          ∨ (hasMyshopifyMention html = true
              ∧ 3 ≤ mediumMatchCount html + lowMatchCount html)))
      ∧ isShopifyHtml "" = false := by
  intro html
  refine ⟨?_, by decide⟩
  by_cases hlen : html.length = 0
  · have h0 : html = "" := by
      cases html with
      | mk data =>
        cases data with
        | nil => rfl
        | cons a as => simp [String.length] at hlen
    subst h0
    decide
  · unfold isShopifyHtml highMatchCount mediumMatchCount lowMatchCount hasMyshopifyMention
    rw [if_neg hlen]
    cases hA : highConfidencePatterns.any (fun p => strContains (lowerStr html) p) with
    | true =>
      have h1 : 1 ≤ highConfidencePatterns.countP (fun p => strContains (lowerStr html) p) :=
        (any_eq_true_iff_countP _ _).mp hA
      simp only [hA, if_true]
      exact iff_of_true trivial (Or.inl h1)
    | false =>
      have hhc : ¬ 1 ≤ highConfidencePatterns.countP (fun p => strContains (lowerStr html) p) := by
        intro hc
        rw [← any_eq_true_iff_countP] at hc
        rw [hA] at hc
        exact absurd hc (by simp)
      simp only [hA, Bool.false_eq_true, if_false]
      split_ifs with h1 h2 h3
      · exact iff_of_true rfl (Or.inr (Or.inl h1))
      · exact iff_of_true rfl (Or.inr (Or.inr (Or.inl h2)))
      · exact iff_of_true rfl (Or.inr (Or.inr (Or.inr h3)))
      · refine iff_of_false (by simp) ?_
        rintro (h | h | h | h)
        · exact hhc h
        · exact h1 h
        · exact h2 h
        · exact h3 h

/-! ## Claim C9 -/

/-- C9 counterexample: with a max-total-domains cap of 1, a single query
harvesting two distinct domains makes `massFetchDomainsFromCT` return a
2-element list — the cap does not bound the returned list's length, it only
stops later queries. -/
theorem mass_ct_cap_can_be_exceeded :
    (massFetchDomainsFromCT ⟨some 1, none⟩
      [("q1", .ok ["a.myshopify.com", "b.myshopify.com"])]).domains.length = 2
    ∧ ¬ (massFetchDomainsFromCT ⟨some 1, none⟩
      [("q1", .ok ["a.myshopify.com", "b.myshopify.com"])]).domains.length ≤ 1 := by
  exact ⟨by decide, by decide⟩

/-- Membership through an insertion-ordered set insertion. -/
theorem mem_setInsert (l : List String) (d x : String) :
    x ∈ setInsert l d ↔ x ∈ l ∨ x = d := by
  unfold setInsert
  by_cases hc : l.contains d = true
  · rw [if_pos hc]
    have hd : d ∈ l := by simpa using hc
    exact ⟨Or.inl, fun h => h.elim id (fun hx => hx ▸ hd)⟩
  · rw [if_neg hc]
    simp

/-- Set insertion preserves distinctness. -/
theorem nodup_setInsert (l : List String) (d : String) (h : l.Nodup) :
    (setInsert l d).Nodup := by
  unfold setInsert
  by_cases hc : l.contains d = true
  · rw [if_pos hc]; exact h
  · rw [if_neg hc]
    have hd : d ∉ l := by simpa using hc
    simp [List.nodup_append, h, hd]

/-- Set insertion grows the list by at most one element. -/
theorem length_setInsert_le (l : List String) (d : String) :
    (setInsert l d).length ≤ l.length + 1 := by
  unfold setInsert
  split <;> simp

/-- Folding a harvest into the set preserves distinctness. -/
theorem nodup_foldl_setInsert (ds : List String) :
    ∀ l : List String, l.Nodup → (ds.foldl setInsert l).Nodup := by
  induction ds with
  | nil => intro l h; exact h
  | cons d ds ih => intro l h; exact ih _ (nodup_setInsert _ _ h)

/-- Folding a harvest into the set adds at most the harvest's length. -/
theorem length_foldl_setInsert (ds : List String) :
    ∀ l : List String, (ds.foldl setInsert l).length ≤ l.length + ds.length := by
  induction ds with
  | nil => intro l; simp
  | cons d ds ih =>
    intro l
    have h1 := ih (setInsert l d)
    have h2 := length_setInsert_le l d
    simp only [List.foldl_cons, List.length_cons]
    omega

/-- Membership through sorted insertion. -/
theorem mem_insertSorted (d x : String) (l : List String) :
    x ∈ insertSorted d l ↔ x = d ∨ x ∈ l := by
  induction l with
  | nil => simp [insertSorted]
  | cons a l ih =>
    unfold insertSorted
    split
    · simp only [List.mem_cons, ih]
      tauto
    · simp only [List.mem_cons]

/-- Sorted insertion adds exactly one element. -/
theorem length_insertSorted (d : String) (l : List String) :
    (insertSorted d l).length = l.length + 1 := by
  induction l with
  | nil => rfl
  | cons a l ih =>
    unfold insertSorted
    split <;> simp [ih]

/-- Sorting preserves length. -/
theorem length_sortStrings (l : List String) :
    (sortStrings l).length = l.length := by
  induction l with
  | nil => rfl
  | cons a l ih => simp [sortStrings, length_insertSorted, ih]

/-- Sorting preserves membership. -/
theorem mem_sortStrings (x : String) (l : List String) :
    x ∈ sortStrings l ↔ x ∈ l := by
  induction l with
  | nil => simp [sortStrings]
  | cons a l ih => simp [sortStrings, mem_insertSorted, ih]

/-- Sorted insertion of a fresh element preserves distinctness. -/
theorem nodup_insertSorted (d : String) :
    ∀ l : List String, l.Nodup → d ∉ l → (insertSorted d l).Nodup := by
  intro l
  induction l with
  | nil => intro _ _; simp [insertSorted]
  | cons a l ih =>
    intro h hd
    unfold insertSorted
    split
    · rw [List.nodup_cons] at h ⊢
      refine ⟨?_, ih h.2 (fun hm => hd (List.mem_cons_of_mem _ hm))⟩
      rw [mem_insertSorted]
      rintro (rfl | hm)
      · exact hd (List.mem_cons_self _ _)
      · exact h.1 hm
    · exact List.nodup_cons.mpr ⟨hd, h⟩

/-- Sorting preserves distinctness. -/
theorem nodup_sortStrings :
    ∀ l : List String, l.Nodup → (sortStrings l).Nodup := by
  intro l
  induction l with
  | nil => intro _; simp [sortStrings]
  | cons a l ih =>
    intro h
    rw [List.nodup_cons] at h
    exact nodup_insertSorted a _ (ih h.2)
      (fun hm => h.1 ((mem_sortStrings a l).mp hm))

/-- Every query's harvest is bounded by the largest harvest. -/
theorem harvestLen_le_maxHarvestLen
    (queries : List (String × Except String (List String))) :
    ∀ q ∈ queries, harvestLen q ≤ maxHarvestLen queries := by
  induction queries with
  | nil => intro q hq; exact absurd hq (List.not_mem_nil q)
  | cons a rest ih =>
    intro q hq
    rcases List.mem_cons.mp hq with rfl | hq
    · exact Nat.le_max_left _ _
    · exact Nat.le_trans (ih q hq) (Nat.le_max_right _ _)

/-- Mass-scan loop invariant: the collected set stays distinct. -/
theorem massCtLoop_nodup (opts : MassCtOptions) :
    ∀ (queries : List (String × Except String (List String))) (st : MassCtState),
      st.allDomains.Nodup → (massCtLoop opts queries st).allDomains.Nodup := by
  intro queries
  induction queries with
  | nil => intro st h; exact h
  | cons q rest ih =>
    intro st h
    obtain ⟨desc, outcome⟩ := q
    unfold massCtLoop
    by_cases hcap : capReached opts.maxTotalDomains st.allDomains.length = true
    · rw [if_pos hcap]; exact h
    · rw [if_neg hcap]
      cases outcome with
      | ok domains =>
        by_cases hcap2 :
            capReached opts.maxTotalDomains
              (domains.foldl setInsert st.allDomains).length = true
        · simp only [hcap2, if_true]
          exact nodup_foldl_setInsert domains _ h
        · simp only [hcap2, Bool.false_eq_true, if_false]
          exact ih _ (nodup_foldl_setInsert domains _ h)
      | error e =>
        by_cases hstop : limitReached opts.stopAfterConsecutiveErrors
            (st.consecutiveErrors + 1) = true
        · rw [if_pos hstop]; exact h
        · rw [if_neg hstop]; exact ih _ h

/-- Mass-scan loop invariant: when the cap `c ≥ 1` is set and every pending
query harvests at most `M` domains, a state within `c - 1 + M` domains stays
within `c - 1 + M` domains. -/
theorem massCtLoop_length_le (stop : Option Nat) (c : Nat) :
    ∀ (queries : List (String × Except String (List String))) (st : MassCtState)
      (M : Nat),
      1 ≤ c →
      (∀ q ∈ queries, harvestLen q ≤ M) →
      st.allDomains.length ≤ c - 1 + M →
      (massCtLoop ⟨some c, stop⟩ queries st).allDomains.length ≤ c - 1 + M := by
  intro queries
  induction queries with
  | nil => intro st M _ _ hst; exact hst
  | cons q rest ih =>
    intro st M hc hM hst
    obtain ⟨desc, outcome⟩ := q
    unfold massCtLoop
    by_cases hcap : capReached (some c) st.allDomains.length = true
    · rw [if_pos hcap]; exact hst
    · rw [if_neg hcap]
      have hlt : st.allDomains.length < c := by
        unfold capReached at hcap
        simp at hcap
        omega
      cases outcome with
      | ok domains =>
        have hd : domains.length ≤ M :=
          hM (desc, .ok domains) (List.mem_cons_self _ _)
        have hfold := length_foldl_setInsert domains st.allDomains
        have hlen : (domains.foldl setInsert st.allDomains).length ≤ c - 1 + M := by
          omega
        by_cases hcap2 :
            capReached (some c) (domains.foldl setInsert st.allDomains).length = true
        · simp only [hcap2, if_true]
          exact hlen
        · simp only [hcap2, Bool.false_eq_true, if_false]
          exact ih _ M hc (fun q hq => hM q (List.mem_cons_of_mem _ hq)) hlen
      | error e =>
        by_cases hstop : limitReached stop (st.consecutiveErrors + 1) = true
        · rw [if_pos hstop]; exact hst
        · rw [if_neg hstop]
          exact ih _ M hc (fun q hq => hM q (List.mem_cons_of_mem _ hq)) hst

/-- C9 amended: with a positive max-total-domains cap `c`, the bulk CT scan
returns a deduplicated (distinct) domain list, and its length is bounded by
`c - 1` plus the largest single-query harvest — the scan stops issuing
further queries once the cap is reached, but the final processed query's
domains are all merged first, so the list may exceed the cap itself by up to
that query's contribution. -/
theorem mass_ct_dedup_and_cap_bound :
    ∀ (stop : Option Nat) (c : Nat)
      (queries : List (String × Except String (List String))),
      1 ≤ c →
      (massFetchDomainsFromCT ⟨some c, stop⟩ queries).domains.Nodup
      ∧ (massFetchDomainsFromCT ⟨some c, stop⟩ queries).domains.length
          ≤ c - 1 + maxHarvestLen queries := by
  intro stop c queries hc
  constructor
  · exact nodup_sortStrings _
      (massCtLoop_nodup ⟨some c, stop⟩ queries ⟨[], [], 0⟩ List.nodup_nil)
  · have hbound := massCtLoop_length_le stop c queries ⟨[], [], 0⟩
      (maxHarvestLen queries) hc (harvestLen_le_maxHarvestLen queries)
      (by simp)
    simpa [massFetchDomainsFromCT, length_sortStrings] using hbound

/-! ## Claim C7 -/

/-- Choice is associative. -/
theorem optOr_assoc (a b c : Option String) :
    optOr (optOr a b) c = optOr a (optOr b c) := by
  cases a <;> cases b <;> rfl

/-- A key is found in an association list exactly when it is among the keys. -/
theorem mapGet_isSome_iff_mem_keys (m : List (String × String)) (k : String) :
    (mapGet m k).isSome = true ↔ k ∈ m.map Prod.fst := by
  induction m with
  | nil => simp [mapGet]
  | cons p m ih =>
    by_cases hp : (p.1 == k) = true
    · have h1 : p.1 = k := by simpa using hp
      simp [mapGet, hp, h1]
    · have h1 : ¬ p.1 = k := by simpa using hp
      have h2 : mapGet (p :: m) k = mapGet m k := by simp [mapGet, hp]
      rw [h2, ih]
      simp only [List.map_cons, List.mem_cons]
      constructor
      · exact Or.inr
      · rintro (h | h)
        · exact absurd h.symm h1
        · exact h

/-- A key absent from the keys reads as `none`. -/
theorem mapGet_eq_none_of_not_mem_keys (m : List (String × String)) (k : String)
    (h : k ∉ m.map Prod.fst) : mapGet m k = none := by
  cases hg : mapGet m k with
  | none => rfl
  | some t =>
    exact absurd ((mapGet_isSome_iff_mem_keys m k).mp (by simp [hg])) h

/-- Reading an appended association list: the first part wins. -/
theorem mapGet_append (m₁ m₂ : List (String × String)) (k : String) :
    mapGet (m₁ ++ m₂) k = optOr (mapGet m₁ k) (mapGet m₂ k) := by
  induction m₁ with
  | nil => simp [mapGet, optOr]
  | cons p m ih =>
    by_cases hp : (p.1 == k) = true
    · simp [mapGet, hp, optOr]
    · simp [mapGet, hp, ih]

/-- First-occurrence title over an appended harvest list. -/
theorem firstTitle_append (l₁ l₂ : List SearchResult) (u : String) :
    firstTitle (l₁ ++ l₂) u = optOr (firstTitle l₁ u) (firstTitle l₂ u) := by
  induction l₁ with
  | nil => simp [firstTitle, optOr]
  | cons r l ih =>
    by_cases hr : (r.url == u) = true
    · simp [firstTitle, hr, optOr]
    · simp [firstTitle, hr, ih]

/-- An element already in a list is never appended by `contains`-guarded
insertion. -/
theorem setInsert_of_mem (l : List String) (d : String) (h : d ∈ l) :
    setInsert l d = l := by
  unfold setInsert
  rw [if_pos (by simpa using h)]

/-- A fresh element is appended by `contains`-guarded insertion. -/
theorem setInsert_of_not_mem (l : List String) (d : String) (h : d ∉ l) :
    setInsert l d = l ++ [d] := by
  unfold setInsert
  rw [if_neg (by simpa using h)]

/-- Inserting into the `scanBingBulk` aggregation adds at most the given
URL to the collected set. -/
theorem mem_urls_aggInsert (q : String) (st : AggState) (r : SearchResult)
    (v : String) :
    v ∈ (aggInsert q st r).urls ↔ v ∈ st.urls ∨ v = r.url := by
  unfold aggInsert
  by_cases hc : st.urls.contains r.url = true
  · rw [if_pos hc]
    have hd : r.url ∈ st.urls := by simpa using hc
    exact ⟨Or.inl, fun h => h.elim id (fun hv => hv ▸ hd)⟩
  · rw [if_neg hc]
    simp

/-- Inserting into the `scanBingBulk` aggregation keeps the URL set
distinct. -/
theorem nodup_urls_aggInsert (q : String) (st : AggState) (r : SearchResult)
    (h : st.urls.Nodup) : (aggInsert q st r).urls.Nodup := by
  unfold aggInsert
  by_cases hc : st.urls.contains r.url = true
  · rw [if_pos hc]; exact h
  · rw [if_neg hc]
    have hd : r.url ∉ st.urls := by simpa using hc
    simp [List.nodup_append, h, hd]

/-- Inserting into the `scanBingBulk` aggregation keeps the title map keyed
exactly by the collected URL set. -/
theorem titles_keys_aggInsert (q : String) (st : AggState) (r : SearchResult)
    (h : st.titles.map Prod.fst = st.urls) :
    (aggInsert q st r).titles.map Prod.fst = (aggInsert q st r).urls := by
  unfold aggInsert
  split
  · exact h
  · simp [h]

/-- Title lookup after one aggregation insertion: a fresh URL gets the
inserted title, an already-collected URL keeps its first title. -/
theorem mapGet_titles_aggInsert (q : String) (st : AggState) (r : SearchResult)
    (u : String) (hkeys : st.titles.map Prod.fst = st.urls) :
    mapGet (aggInsert q st r).titles u
      = if r.url = u ∧ mapGet st.titles u = none then some r.title
        else mapGet st.titles u := by
  unfold aggInsert
  by_cases hc : st.urls.contains r.url = true
  · rw [if_pos hc]
    have hmem : r.url ∈ st.urls := by simpa using hc
    by_cases hu : r.url = u
    · subst hu
      have hsome : (mapGet st.titles r.url).isSome = true :=
        (mapGet_isSome_iff_mem_keys _ _).mpr (hkeys ▸ hmem)
      cases hg : mapGet st.titles r.url with
      | none => rw [hg] at hsome; simp at hsome
      | some t => simp [hg]
    · simp [hu]
  · rw [if_neg hc]
    have hstep :
        (⟨st.urls ++ [r.url], st.titles ++ [(r.url, r.title)],
          st.queries ++ [(r.url, q)]⟩ : AggState).titles
          = st.titles ++ [(r.url, r.title)] := rfl
    rw [hstep, mapGet_append]
    by_cases hu : r.url = u
    · subst hu
      cases hg : mapGet st.titles r.url with
      | none => simp [optOr, mapGet, hg]
      | some t => simp [optOr, hg]
    · have hu2 : ¬ u = r.url := fun h => hu h.symm
      cases hg : mapGet st.titles u with
      | none => simp [optOr, mapGet, hg, hu, hu2]
      | some t => simp [optOr, hg, hu]

/-- One batch of harvested results keeps the URL set distinct. -/
theorem nodup_urls_aggBatch (q : String) (rs : List SearchResult) :
    ∀ st : AggState, st.urls.Nodup → (aggBatch st q rs).urls.Nodup := by
  induction rs with
  | nil => intro st h; exact h
  | cons r rs ih =>
    intro st h
    exact ih (aggInsert q st r) (nodup_urls_aggInsert q st r h)

/-- One batch of harvested results keeps the title map keyed by the URL
set. -/
theorem titles_keys_aggBatch (q : String) (rs : List SearchResult) :
    ∀ st : AggState, st.titles.map Prod.fst = st.urls →
      (aggBatch st q rs).titles.map Prod.fst = (aggBatch st q rs).urls := by
  induction rs with
  | nil => intro st h; exact h
  | cons r rs ih =>
    intro st h
    exact ih (aggInsert q st r) (titles_keys_aggInsert q st r h)

/-- Membership in the URL set after one batch: the previous URLs plus the
batch's URLs. -/
theorem mem_urls_aggBatch (q : String) (rs : List SearchResult) :
    ∀ (st : AggState) (v : String),
      v ∈ (aggBatch st q rs).urls ↔ v ∈ st.urls ∨ ∃ r ∈ rs, v = r.url := by
  induction rs with
  | nil => intro st v; simp [aggBatch]
  | cons r rs ih =>
    intro st v
    have hstep : aggBatch st q (r :: rs) = aggBatch (aggInsert q st r) q rs := rfl
    rw [hstep, ih, mem_urls_aggInsert]
    constructor
    · rintro ((h | h) | ⟨r', hr', hv⟩)
      · exact Or.inl h
      · exact Or.inr ⟨r, List.mem_cons_self _ _, h⟩
      · exact Or.inr ⟨r', List.mem_cons_of_mem _ hr', hv⟩
    · rintro (h | ⟨r', hr', hv⟩)
      · exact Or.inl (Or.inl h)
      · rcases List.mem_cons.mp hr' with rfl | hr2
        · exact Or.inl (Or.inr hv)
        · exact Or.inr ⟨r', hr2, hv⟩

/-- Title lookup after one batch: a first title already recorded wins, else
the batch's first occurrence provides it. -/
theorem mapGet_titles_aggBatch (q : String) (rs : List SearchResult) :
    ∀ (st : AggState) (u : String),
      st.titles.map Prod.fst = st.urls →
      mapGet (aggBatch st q rs).titles u
        = optOr (mapGet st.titles u) (firstTitle rs u) := by
  induction rs with
  | nil =>
    intro st u _
    cases hg : mapGet st.titles u <;> simp [aggBatch, firstTitle, optOr, hg]
  | cons r rs ih =>
    intro st u hkeys
    have hstep : aggBatch st q (r :: rs) = aggBatch (aggInsert q st r) q rs := rfl
    rw [hstep, ih (aggInsert q st r) u (titles_keys_aggInsert q st r hkeys),
      mapGet_titles_aggInsert q st r u hkeys]
    by_cases hu : r.url = u
    · subst hu
      cases hg : mapGet st.titles r.url with
      | none => simp [optOr, firstTitle, hg]
      | some t => simp [optOr, firstTitle, hg]
    · cases hg : mapGet st.titles u with
      | none => simp [optOr, firstTitle, hg, hu]
      | some t => simp [optOr, firstTitle, hg, hu]

/-- The full `scanBingBulk` aggregation keeps the URL set distinct. -/
theorem nodup_urls_bingBulkAggregate (batches : List (String × List SearchResult)) :
    ∀ st : AggState, st.urls.Nodup → (bingBulkAggregate batches st).urls.Nodup := by
  induction batches with
  | nil => intro st h; exact h
  | cons b rest ih =>
    intro st h
    obtain ⟨q, rs⟩ := b
    exact ih (aggBatch st q rs) (nodup_urls_aggBatch q rs st h)

/-- The full `scanBingBulk` aggregation keeps the title map keyed by the
URL set. -/
theorem titles_keys_bingBulkAggregate (batches : List (String × List SearchResult)) :
    ∀ st : AggState, st.titles.map Prod.fst = st.urls →
      (bingBulkAggregate batches st).titles.map Prod.fst
        = (bingBulkAggregate batches st).urls := by
  induction batches with
  | nil => intro st h; exact h
  | cons b rest ih =>
    intro st h
    obtain ⟨q, rs⟩ := b
    exact ih (aggBatch st q rs) (titles_keys_aggBatch q rs st h)

/-- Membership in the fully aggregated URL set: exactly the harvested
URLs. -/
theorem mem_urls_bingBulkAggregate (batches : List (String × List SearchResult)) :
    ∀ (st : AggState) (v : String),
      v ∈ (bingBulkAggregate batches st).urls
        ↔ v ∈ st.urls ∨ ∃ r ∈ harvestJoin batches, v = r.url := by
  induction batches with
  | nil => intro st v; simp [bingBulkAggregate, harvestJoin]
  | cons b rest ih =>
    intro st v
    obtain ⟨q, rs⟩ := b
    have hstep : bingBulkAggregate ((q, rs) :: rest) st
        = bingBulkAggregate rest (aggBatch st q rs) := rfl
    have hj : harvestJoin ((q, rs) :: rest) = rs ++ harvestJoin rest := by
      simp [harvestJoin]
    rw [hstep, ih, mem_urls_aggBatch, hj]
    constructor
    · rintro ((h | ⟨r', hr', hv⟩) | ⟨r', hr', hv⟩)
      · exact Or.inl h
      · exact Or.inr ⟨r', List.mem_append.mpr (Or.inl hr'), hv⟩
      · exact Or.inr ⟨r', List.mem_append.mpr (Or.inr hr'), hv⟩
    · rintro (h | ⟨r', hr', hv⟩)
      · exact Or.inl (Or.inl h)
      · rcases List.mem_append.mp hr' with h2 | h2
        · exact Or.inl (Or.inr ⟨r', h2, hv⟩)
        · exact Or.inr ⟨r', h2, hv⟩

/-- Title lookup after the full aggregation: the first harvest occurrence
across all batches wins. -/
theorem mapGet_titles_bingBulkAggregate (batches : List (String × List SearchResult)) :
    ∀ (st : AggState) (u : String),
      st.titles.map Prod.fst = st.urls →
      mapGet (bingBulkAggregate batches st).titles u
        = optOr (mapGet st.titles u) (firstTitle (harvestJoin batches) u) := by
  induction batches with
  | nil =>
    intro st u _
    cases hg : mapGet st.titles u <;> simp [bingBulkAggregate, harvestJoin, firstTitle, optOr, hg]
  | cons b rest ih =>
    intro st u hkeys
    obtain ⟨q, rs⟩ := b
    have hstep : bingBulkAggregate ((q, rs) :: rest) st
        = bingBulkAggregate rest (aggBatch st q rs) := rfl
    have hj : harvestJoin ((q, rs) :: rest) = rs ++ harvestJoin rest := by
      simp [harvestJoin]
    rw [hstep, ih (aggBatch st q rs) u (titles_keys_aggBatch q rs st hkeys),
      mapGet_titles_aggBatch q rs st u hkeys, hj, firstTitle_append, optOr_assoc]

/-- Writing a fresh key appends its binding. -/
theorem mapSet_of_not_mem_keys (m : List (String × String)) (k v : String)
    (h : k ∉ m.map Prod.fst) : mapSet m k v = m ++ [(k, v)] := by
  induction m with
  | nil => rfl
  | cons p m ih =>
    simp only [List.map_cons, List.mem_cons] at h
    push_neg at h
    have hp : (p.1 == k) = false := by
      simp only [beq_eq_false_iff_ne, ne_eq]
      exact fun hh => h.1 hh.symm
    simp [mapSet, hp, ih h.2]

/-- Reading back a just-written key. -/
theorem mapGet_mapSet_self (m : List (String × String)) (k v : String) :
    mapGet (mapSet m k v) k = some v := by
  induction m with
  | nil => simp [mapSet, mapGet]
  | cons p m ih =>
    by_cases hp : (p.1 == k) = true
    · simp [mapSet, mapGet, hp]
    · simp [mapSet, mapGet, hp, ih]

/-- Writing one key leaves the other keys' bindings unchanged. -/
theorem mapGet_mapSet_ne (m : List (String × String)) (k v u : String)
    (h : ¬ k = u) : mapGet (mapSet m k v) u = mapGet m u := by
  induction m with
  | nil =>
    have h2 : ¬ ((k : String) == u) = true := by simpa using h
    simp [mapSet, mapGet, h2]
  | cons p m ih =>
    by_cases hp : (p.1 == k) = true
    · have h1 : p.1 = k := by simpa using hp
      have h2 : ¬ ((k : String) == u) = true := by simpa using h
      have h3 : ¬ (p.1 == u) = true := by simp [h1]; exact h
      simp [mapSet, mapGet, hp, h2, h3]
    · simp [mapSet, mapGet, hp, ih]

/-- Association-list view of the map built from a result list. -/
theorem mapGet_map_pair (ct : List SearchResult) (u : String) :
    mapGet (ct.map (fun r => (r.url, r.title))) u = firstTitle ct u := by
  induction ct with
  | nil => rfl
  | cons r ct ih =>
    by_cases hr : (r.url == u) = true
    · simp [mapGet, firstTitle, hr]
    · simp [mapGet, firstTitle, hr, ih]

/-- The certificate-transparency phase of the `scanMassive` merge, on
fresh, duplicate-free input, appends exactly the harvested URLs and their
title bindings. -/
theorem massiveCtFold_spec (ct : List SearchResult) :
    ∀ st : MassiveAgg,
      st.urlToTitle.map Prod.fst = st.allUrls →
      (∀ r ∈ ct, r.url ∉ st.allUrls) →
      (ct.map (fun r => r.url)).Nodup →
      ct.foldl massiveCtStep st
        = ⟨st.allUrls ++ ct.map (fun r => r.url),
           st.urlToTitle ++ ct.map (fun r => (r.url, r.title))⟩ := by
  induction ct with
  | nil =>
    intro st _ _ _
    cases st
    simp
  | cons r ct ih =>
    intro st hkeys hfresh hnodup
    have hru : r.url ∉ st.allUrls := hfresh r (List.mem_cons_self _ _)
    have hstep : massiveCtStep st r
        = ⟨st.allUrls ++ [r.url], st.urlToTitle ++ [(r.url, r.title)]⟩ := by
      unfold massiveCtStep
      rw [setInsert_of_not_mem _ _ hru,
        mapSet_of_not_mem_keys _ _ _ (by rw [hkeys]; exact hru)]
    rw [List.map_cons] at hnodup
    have hnodup2 := List.nodup_cons.mp hnodup
    have hkeys' : (massiveCtStep st r).urlToTitle.map Prod.fst
        = (massiveCtStep st r).allUrls := by
      rw [hstep]
      simp [hkeys]
    have hfresh' : ∀ r' ∈ ct, r'.url ∉ (massiveCtStep st r).allUrls := by
      intro r' hr'
      rw [hstep]
      simp only [List.mem_append, List.mem_singleton]
      rintro (h | h)
      · exact hfresh r' (List.mem_cons_of_mem _ hr') h
      · exact hnodup2.1 (h ▸ List.mem_map_of_mem (fun r => r.url) hr')
    simp only [List.foldl_cons]
    rw [ih (massiveCtStep st r) hkeys' hfresh' hnodup2.2, hstep]
    simp

/-- The code-search step of the `scanMassive` merge keeps the title map
keyed exactly by the collected URL set. -/
theorem keys_massiveGithubStep (st : MassiveAgg) (r : SearchResult)
    (hkeys : st.urlToTitle.map Prod.fst = st.allUrls) :
    (massiveGithubStep st r).urlToTitle.map Prod.fst
      = (massiveGithubStep st r).allUrls := by
  unfold massiveGithubStep
  by_cases hs : (mapGet st.urlToTitle r.url).isSome = true
  · have hmem : r.url ∈ st.allUrls := by
      rw [← hkeys]
      exact (mapGet_isSome_iff_mem_keys _ _).mp hs
    rw [if_pos hs, setInsert_of_mem _ _ hmem]
    exact hkeys
  · have hmem : r.url ∉ st.allUrls := by
      rw [← hkeys]
      intro hm
      exact hs ((mapGet_isSome_iff_mem_keys _ _).mpr hm)
    rw [if_neg hs, setInsert_of_not_mem _ _ hmem,
      mapSet_of_not_mem_keys _ _ _ (by rw [hkeys]; exact hmem)]
    simp [hkeys]

/-- Title lookup after the code-search phase: an already-recorded title
wins, otherwise the phase's first occurrence provides it. -/
theorem mapGet_massiveGithubFold (gh : List SearchResult) :
    ∀ (st : MassiveAgg) (u : String),
      st.urlToTitle.map Prod.fst = st.allUrls →
      mapGet ((gh.foldl massiveGithubStep st).urlToTitle) u
        = optOr (mapGet st.urlToTitle u) (firstTitle gh u) := by
  induction gh with
  | nil =>
    intro st u _
    cases hg : mapGet st.urlToTitle u <;> simp [firstTitle, optOr, hg]
  | cons r gh ih =>
    intro st u hkeys
    simp only [List.foldl_cons]
    rw [ih (massiveGithubStep st r) u (keys_massiveGithubStep st r hkeys)]
    by_cases hs : (mapGet st.urlToTitle r.url).isSome = true
    · have hstep : (massiveGithubStep st r).urlToTitle = st.urlToTitle := by
        unfold massiveGithubStep
        rw [if_pos hs]
      rw [hstep]
      by_cases hu : r.url = u
      · subst hu
        cases hg : mapGet st.urlToTitle r.url with
        | none => rw [hg] at hs; simp at hs
        | some t => simp [optOr, firstTitle, hg]
      · cases hg : mapGet st.urlToTitle u <;> simp [optOr, firstTitle, hg, hu]
    · have hnone : mapGet st.urlToTitle r.url = none := by
        cases hg : mapGet st.urlToTitle r.url with
        | none => rfl
        | some t => rw [hg] at hs; simp at hs
      have hstep : (massiveGithubStep st r).urlToTitle
          = mapSet st.urlToTitle r.url r.title := by
        unfold massiveGithubStep
        rw [if_neg hs]
      rw [hstep]
      by_cases hu : r.url = u
      · subst hu
        rw [mapGet_mapSet_self]
        simp [optOr, firstTitle, hnone]
      · rw [mapGet_mapSet_ne _ _ _ _ hu]
        cases hg : mapGet st.urlToTitle u <;> simp [optOr, firstTitle, hg, hu]

/-- Both phases of the `scanMassive` merge keep the URL set distinct. -/
theorem nodup_allUrls_massiveCtFold (ct : List SearchResult) :
    ∀ st : MassiveAgg, st.allUrls.Nodup → ((ct.foldl massiveCtStep st).allUrls).Nodup := by
  induction ct with
  | nil => intro st h; exact h
  | cons r ct ih =>
    intro st h
    exact ih (massiveCtStep st r) (nodup_setInsert _ _ h)

/-- The code-search phase of the `scanMassive` merge keeps the URL set
distinct. -/
theorem nodup_allUrls_massiveGithubFold (gh : List SearchResult) :
    ∀ st : MassiveAgg, st.allUrls.Nodup →
      ((gh.foldl massiveGithubStep st).allUrls).Nodup := by
  induction gh with
  | nil => intro st h; exact h
  | cons r gh ih =>
    intro st h
    exact ih (massiveGithubStep st r) (nodup_setInsert _ _ h)

/-- The per-certificate line fold of `getShopifyDomainsFromCT` keeps the
domain set distinct. -/
theorem nodup_ctLineFold (lines : List String) :
    ∀ acc : List String, acc.Nodup →
      (lines.foldl
        (fun acc line =>
          match cleanCTDomainLine line with
          | some d => setInsert acc d
          | none => acc) acc).Nodup := by
  induction lines with
  | nil => intro acc h; exact h
  | cons line lines ih =>
    intro acc h
    simp only [List.foldl_cons]
    cases cleanCTDomainLine line with
    | some d => exact ih _ (nodup_setInsert _ _ h)
    | none => exact ih _ h

/-- The certificate loop of `getShopifyDomainsFromCT` keeps the domain set
distinct. -/
theorem nodup_ctCollectDomains (nvs : List String) :
    ∀ (processed maxR : Nat) (acc : List String), acc.Nodup →
      (ctCollectDomains nvs processed maxR acc).Nodup := by
  induction nvs with
  | nil => intro _ _ acc h; exact h
  | cons nv nvs ih =>
    intro processed maxR acc h
    unfold ctCollectDomains
    split
    · exact h
    · split
      · exact ih _ _ _ h
      · exact ih _ _ _ (nodup_ctLineFold _ _ h)

/-- The CT source adapter `getShopifyDomainsFromCT` produces a
duplicate-free URL list — the freshness hypothesis the `scanMassive` merge
relies on holds for its real first source. -/
theorem nodup_urls_getShopifyDomainsFromCT (nvs : List String) (maxR : Nat) :
    ((getShopifyDomainsFromCT nvs maxR).map (fun r => r.url)).Nodup := by
  unfold getShopifyDomainsFromCT
  rw [List.map_map]
  have hcomp : ((fun r : SearchResult => r.url)
      ∘ (fun d => (⟨d, "https://" ++ d⟩ : SearchResult)))
      = fun d => "https://" ++ d := rfl
  rw [hcomp]
  apply List.Nodup.map
  · intro a b hab
    cases a with | mk la =>
    cases b with | mk lb =>
    have hd : ("https://" ++ String.mk la).data
        = ("https://" ++ String.mk lb).data := congrArg String.data hab
    simp [String.data_append] at hd
    exact congrArg String.mk hd
  · exact nodup_ctCollectDomains nvs 0 maxR [] List.nodup_nil

/-- C7: the `scanBingBulk` aggregation collects each distinct URL at most
once, retains the title of its first harvest occurrence, and its membership
is unchanged by merging the same input twice and by swapping the order of
the source batches; the `scanMassive` two-source merge (whose CT source
produces duplicate-free URLs) likewise keeps a distinct URL set and the
first-occurrence title across both sources. -/
theorem dedup_aggregator_first_seen_idempotent :
    ∀ (batches bs2 : List (String × List SearchResult)) (u : String)
      (ct gh : List SearchResult),
      (ct.map (fun r => r.url)).Nodup →
      ((bingBulkAggregate batches emptyAgg).urls.Nodup
        ∧ mapGet (bingBulkAggregate batches emptyAgg).titles u
            = firstTitle (harvestJoin batches) u
        ∧ (u ∈ (bingBulkAggregate (batches ++ batches) emptyAgg).urls
            ↔ u ∈ (bingBulkAggregate batches emptyAgg).urls)
        ∧ (u ∈ (bingBulkAggregate (batches ++ bs2) emptyAgg).urls
            ↔ u ∈ (bingBulkAggregate (bs2 ++ batches) emptyAgg).urls))
      ∧ ((scanMassiveAggregate ct gh).allUrls.Nodup
        ∧ mapGet (scanMassiveAggregate ct gh).urlToTitle u
            = firstTitle (ct ++ gh) u) := by
  intro batches bs2 u ct gh hnodup
  have hmem : ∀ L : List (String × List SearchResult),
      u ∈ (bingBulkAggregate L emptyAgg).urls
        ↔ ∃ r ∈ harvestJoin L, u = r.url := by
    intro L
    rw [mem_urls_bingBulkAggregate]
    simp [emptyAgg]
  have hJ : ∀ L1 L2 : List (String × List SearchResult),
      harvestJoin (L1 ++ L2) = harvestJoin L1 ++ harvestJoin L2 := by
    intro L1 L2
    simp [harvestJoin]
  have hctfold := massiveCtFold_spec ct ⟨[], []⟩ rfl
    (fun r _ => List.not_mem_nil r.url) hnodup
  refine ⟨⟨?_, ?_, ?_, ?_⟩, ?_, ?_⟩
  · exact nodup_urls_bingBulkAggregate batches emptyAgg List.nodup_nil
  · rw [mapGet_titles_bingBulkAggregate batches emptyAgg u rfl]
    rfl
  · rw [hmem, hmem, hJ]
    constructor
    · rintro ⟨r, hr, hv⟩
      rcases List.mem_append.mp hr with h | h
      · exact ⟨r, h, hv⟩
      · exact ⟨r, h, hv⟩
    · rintro ⟨r, hr, hv⟩
      exact ⟨r, List.mem_append.mpr (Or.inl hr), hv⟩
  · rw [hmem, hmem, hJ, hJ]
    constructor
    · rintro ⟨r, hr, hv⟩
      rcases List.mem_append.mp hr with h | h
      · exact ⟨r, List.mem_append.mpr (Or.inr h), hv⟩
      · exact ⟨r, List.mem_append.mpr (Or.inl h), hv⟩
    · rintro ⟨r, hr, hv⟩
      rcases List.mem_append.mp hr with h | h
      · exact ⟨r, List.mem_append.mpr (Or.inr h), hv⟩
      · exact ⟨r, List.mem_append.mpr (Or.inl h), hv⟩
  · unfold scanMassiveAggregate
    exact nodup_allUrls_massiveGithubFold gh _
      (nodup_allUrls_massiveCtFold ct ⟨[], []⟩ List.nodup_nil)
  · unfold scanMassiveAggregate
    have hkeys1 : (ct.foldl massiveCtStep ⟨[], []⟩).urlToTitle.map Prod.fst
        = (ct.foldl massiveCtStep ⟨[], []⟩).allUrls := by
      rw [hctfold]
      simp
    rw [mapGet_massiveGithubFold gh _ u hkeys1, hctfold]
    have hget1 : mapGet (MassiveAgg.urlToTitle
        ⟨List.nil ++ ct.map (fun r => r.url),
         List.nil ++ ct.map (fun r => (r.url, r.title))⟩) u
        = firstTitle ct u := by
      simp only [List.nil_append]
      exact mapGet_map_pair ct u
    rw [hget1, firstTitle_append]

/-- Witness for C7: a concrete duplicate-free CT harvest satisfies the
aggregation invariants. -/
theorem dedup_aggregator_first_seen_idempotent_witness :
    (([⟨"t1", "https://a.myshopify.com"⟩] : List SearchResult).map
        (fun r => r.url)).Nodup
    ∧ (scanMassiveAggregate [⟨"t1", "https://a.myshopify.com"⟩] []).allUrls.Nodup :=
  ⟨by decide,
    (dedup_aggregator_first_seen_idempotent [] [] "u"
      [⟨"t1", "https://a.myshopify.com"⟩] [] (by decide)).2.1⟩

/-- Witness for C9 amended: cap 1 with a single query harvesting two
domains — the returned list is distinct and within `0 + 2`. -/
theorem mass_ct_dedup_and_cap_bound_witness :
    1 ≤ 1
    ∧ ((massFetchDomainsFromCT ⟨some 1, none⟩
        [("q1", .ok ["a.myshopify.com", "b.myshopify.com"])]).domains.Nodup
      ∧ (massFetchDomainsFromCT ⟨some 1, none⟩
        [("q1", .ok ["a.myshopify.com", "b.myshopify.com"])]).domains.length
          ≤ 1 - 1 + maxHarvestLen [("q1", .ok ["a.myshopify.com", "b.myshopify.com"])]) :=
  ⟨by decide,
    mass_ct_dedup_and_cap_bound none 1
      [("q1", .ok ["a.myshopify.com", "b.myshopify.com"])] (by decide)⟩
